import Mathlib

/-!
Verification of the grunt addon manager core against its design document.

The Rust sources are shallowly embedded: pure functions become Lean
functions, filesystem and network effects become explicit state passing
(the set of top-level directories under the addon root is modelled as a
list of names), and panics become `Except`/`Option` failures.  Machine
integers are modelled as `Nat`/`Int`; the 32-bit hash masks with
`% 2^32` where overflow matters.
-/

/-! ## Data model (src/addon.rs, src/lockfile.rs) -/

/-- Addon source variant, from `AddonType` in src/addon.rs. -/
inductive AddonType where
  | Curse
  | Tukui
  | TSM
deriving DecidableEq, Repr

/-- Tracked addon record, from `Addon` in src/addon.rs: display name, source
variant, source-specific id, opaque version token and the list of top-level
directories the addon owns. -/
structure Addon where
  name : String
  addon_type : AddonType
  addon_id : String
  version : String
  dirs : List String
deriving DecidableEq, Repr

/-- Persisted manifest record, from `AddonInfo` in src/lockfile.rs.  The
declared struct holds exactly the fields `name`, `addon_type`, `addon_id`
and `dirs`; it has no `version` field (even though `Addon::to_info` and
`Addon::from_info` in src/addon.rs try to write and read one, which cannot
type-check against this declaration). -/
structure AddonInfo where
  name : String
  addon_type : AddonType
  addon_id : String
  dirs : List String
deriving DecidableEq, Repr

/-- Embedding of `Addon::to_info` (src/addon.rs): copy the addon fields into
a manifest record.  The source also writes a `version` field, but the
`AddonInfo` struct declared in src/lockfile.rs has none, so only the four
declared fields can be carried. -/
def Addon.to_info (a : Addon) : AddonInfo :=
  { name := a.name
    addon_type := a.addon_type
    addon_id := a.addon_id
    dirs := a.dirs }

/-- Module entry of a curse file record, from `Module` in src/curse.rs (the
source name `Module` is taken by Mathlib, hence the prefix). -/
structure CurseModule where
  foldername : String
  fingerprint : Nat
  type_field : Int
deriving DecidableEq, Repr

/-- Curse file record, from `File` in src/curse.rs.  Only the fields consumed
by the embedded functions (`id` and `modules`) are modelled; the remaining
metadata fields are never read by the code under verification. -/
structure CurseFile where
  id : Int
  modules : List CurseModule
deriving DecidableEq, Repr

/-- Exact-match entry of a fingerprint-search response, from
`AddonFingerprintInfo` in src/curse.rs (the unused `latest_files` field is
omitted). -/
structure AddonFingerprintInfo where
  id : Int
  file : CurseFile
deriving DecidableEq, Repr

/-- Embedding of `Addon::from_curse_info` (src/addon.rs): a new Curse addon
named after the originating directory, owning one directory per module of
the matched file record. -/
def Addon.from_curse_info (dir_name : String) (info : AddonFingerprintInfo) : Addon :=
  { name := dir_name
    addon_type := AddonType.Curse
    addon_id := toString info.id
    version := toString info.file.id
    dirs := info.file.modules.map CurseModule.foldername }

/-- Embedding of `Addon::from_tukui_info` (src/addon.rs). -/
def Addon.from_tukui_info (name : String) (id : Int) (dirs : List String)
    (version : String) : Addon :=
  { name := name
    addon_type := AddonType.Tukui
    addon_id := toString id
    version := version
    dirs := dirs }

/-- Embedding of `Addon::init_tsm` (src/addon.rs). -/
def Addon.init_tsm (version : String) : Addon :=
  { name := "TradeSkillMaster"
    addon_type := AddonType.TSM
    addon_id := "TradeSkillMaster"
    version := version
    dirs := ["TradeSkillMaster"] }

/-- Embedding of `Addon::init_tsm_helper` (src/addon.rs). -/
def Addon.init_tsm_helper (version : String) : Addon :=
  { name := "TradeSkillMaster_AppHelper"
    addon_type := AddonType.TSM
    addon_id := "AppHelper"
    version := version
    dirs := ["TradeSkillMaster_AppHelper"] }

/-! ## Manager state (src/lib.rs) -/

/-- State of a `Grunt` instance (src/lib.rs): the tracked addon list plus a
model of the filesystem, namely the names of the top-level directories
currently present under the addon root directory. -/
structure Grunt where
  addons : List Addon
  root_dirs : List String

/-- Embedding of `Lockfile::from_grunt` (src/lockfile.rs): the manifest
written by `Grunt::save_lockfile` is one `AddonInfo` per tracked addon, in
order. -/
def Lockfile.from_grunt (g : Grunt) : List AddonInfo :=
  g.addons.map Addon.to_info

/-- Embedding of `Grunt::find_untracked` (src/lib.rs): the top-level
directories on disk that are not owned by any tracked addon. -/
def Grunt.find_untracked (g : Grunt) : List String :=
  let all_tracked := g.addons.flatMap Addon.dirs
  g.root_dirs.filter (fun dir => !all_tracked.contains dir)

/-- Ownership conflict record, from `Conflict` in src/lib.rs. -/
structure Conflict where
  addon_a_index : Nat
  addon_b_index : Nat
  dir : String
deriving DecidableEq, Repr

/-- Innermost loop of `Grunt::check_conflicts` (src/lib.rs): for one pair
of enumerated addons, one conflict per directory of the first addon that
the second addon also owns. -/
def conflict_pair (p q : Nat × Addon) : List Conflict :=
  p.2.dirs.filterMap (fun dir =>
    if q.2.dirs.contains dir then
      some { addon_a_index := p.1, addon_b_index := q.1, dir := dir }
    else none)

/-- Middle loop of `Grunt::check_conflicts`: one enumerated addon against
every enumerated addon after it (`enumerate().skip(i + 1)`). -/
def conflict_row (addons_enum : List (Nat × Addon)) (p : Nat × Addon) :
    List Conflict :=
  (addons_enum.drop (p.1 + 1)).flatMap (conflict_pair p)

/-- Embedding of `Grunt::check_conflicts` (src/lib.rs): for every enumerated
addon, scan the addons after it and report a conflict for every directory
name the two addons share. -/
def Grunt.check_conflicts (g : Grunt) : List Conflict :=
  g.addons.enum.flatMap (conflict_row g.addons.enum)

/-- Loop body of `Grunt::remove_dirs` (src/lib.rs).  The boolean result is
`false` when the loop panics (either because a requested name is not in the
untracked set, or because `remove_dir_all` fails on a name that is not on
disk); the list is the set of top-level directories still on disk when the
loop stops, since deletions made before a panic persist. -/
def remove_dirs_go (untracked : List String) (root_dirs : List String) :
    List String → List String × Bool
  | [] => (root_dirs, true)
  | d :: rest =>
    if !untracked.contains d then (root_dirs, false)
    else if !root_dirs.contains d then (root_dirs, false)
    else remove_dirs_go untracked (root_dirs.erase d) rest

/-- Embedding of `Grunt::remove_dirs` (src/lib.rs): compute the untracked
set once, then delete each requested directory, panicking on a tracked
name. -/
def Grunt.remove_dirs (g : Grunt) (dirs : List String) : List String × Bool :=
  remove_dirs_go g.find_untracked g.root_dirs dirs

/-! ## Update planning (src/lib.rs, `Grunt::update_addons` lines 212-346) -/

/-- Decimal digit run parser used to model Rust `str::parse::<i64>`. -/
def parse_digits (cs : List Char) : Option Nat :=
  match cs with
  | [] => none
  | _ =>
    cs.foldl
      (fun acc c =>
        acc.bind (fun n => if c.isDigit then some (10 * n + (c.toNat - 48)) else none))
      (some 0)

/-- Model of Rust `str::parse::<i64>` as used on version strings: an
optional sign followed by decimal digits (values are far below the i64
overflow bound in this program, so overflow is not modelled). -/
def parse_i64 (s : String) : Option Int :=
  match s.data with
  | '+' :: rest => (parse_digits rest).map Int.ofNat
  | '-' :: rest => (parse_digits rest).map (fun n => -(n : Int))
  | cs => (parse_digits cs).map Int.ofNat

/-- Candidate update entry, from `Updateable` in src/lib.rs. -/
structure Updateable where
  index : Nat
  name : String
  new_version : String
  url : String
deriving DecidableEq, Repr

/-- Results of the per-source version lookups joined before the plan step of
`Grunt::update_addons`: the curse map sends a curse id to the newest retail
file id and its download url, the tukui map sends a tukui id to the latest
version string and url, and `elvui` is the special-case ElvUI lookup. -/
structure PlanSources where
  latest_curse : String → Option (Int × String)
  latest_tukui : String → Option (String × String)
  elvui : String × String

/-- One iteration of the outdated-addon filter of `Grunt::update_addons`
(src/lib.rs lines 293-336).  Curse addons compare the stored version parsed
as an integer against the latest file id with `>`; Tukui addons (with the
ElvUI special case for id "-2") compare version strings with Rust string
`>`, i.e. lexicographic byte order.  TSM and other addons are skipped.
`Except.error` models the panics on a malformed stored version or a missing
lookup entry. -/
def plan_step (src : PlanSources) (index : Nat) (addon : Addon) :
    Except String (Option Updateable) :=
  match addon.addon_type with
  | AddonType.Curse =>
    match parse_i64 addon.version with
    | none => Except.error "Error parsing stored curse version"
    | some current =>
      match src.latest_curse addon.addon_id with
      | none => Except.error "missing curse lookup entry"
      | some (latest, url) =>
        if current < latest then
          Except.ok (some { index := index, name := addon.name,
                            new_version := toString latest, url := url })
        else Except.ok none
  | AddonType.Tukui =>
    match (if addon.addon_id = "-2" then some src.elvui
           else src.latest_tukui addon.addon_id) with
    | none => Except.error "No tukui addon with the right ID found"
    | some (latest, url) =>
      if addon.version < latest then
        Except.ok (some { index := index, name := addon.name,
                          new_version := latest, url := url })
      else Except.ok none
  | AddonType.TSM => Except.ok none

/-- Fold of `plan_step` over the enumerated addon list, mirroring the
`filter_map` that builds the `outdated` vector in `Grunt::update_addons`. -/
def plan_outdated_go (src : PlanSources) :
    List (Nat × Addon) → Except String (List Updateable)
  | [] => Except.ok []
  | ia :: rest =>
    match plan_step src ia.1 ia.2 with
    | Except.error e => Except.error e
    | Except.ok r =>
      match plan_outdated_go src rest with
      | Except.error e => Except.error e
      | Except.ok rs =>
        match r with
        | some u => Except.ok (u :: rs)
        | none => Except.ok rs

/-- Plan step of `Grunt::update_addons`: the candidate update set computed
from the tracked addons and the joined per-source lookup results. -/
def Grunt.plan_outdated (g : Grunt) (src : PlanSources) :
    Except String (List Updateable) :=
  plan_outdated_go src g.addons.enum

/-! ## Update validation and commit (src/lib.rs, lines 383-474) -/

/-- Top-level entry of one staged (unpacked) update directory: its name and
whether it is a plain file rather than a directory. -/
structure StagedEntry where
  name : String
  is_file : Bool
deriving DecidableEq, Repr

/-- Filesystem action performed by the commit phase of
`Grunt::update_addons`: deleting one top-level directory, or copying one
staged update tree into the root. -/
inductive FsOp where
  | delete_dir (name : String)
  | copy_tree (index : Nat)
deriving DecidableEq, Repr

/-- Names of the top-level entries of one staged update, mirroring the
`read_dir` pass of the `new_dirs` computation: a top-level plain file in the
unpacked archive is a panic ("Only directories expected"). -/
def entry_names : List StagedEntry → Except String (List String)
  | [] => Except.ok []
  | e :: rest =>
    if e.is_file then
      Except.error "File found. Only directories expected in addon update zip"
    else
      match entry_names rest with
      | Except.error msg => Except.error msg
      | Except.ok r => Except.ok (e.name :: r)

/-- Concatenation of the staged top-level directory names over the outdated
indexes, mirroring the `new_dirs` flat-map in `Grunt::update_addons`. -/
def staged_dir_names (staged : Nat → List StagedEntry) :
    List Nat → Except String (List String)
  | [] => Except.ok []
  | i :: rest =>
    match entry_names (staged i) with
    | Except.error e => Except.error e
    | Except.ok here =>
      match staged_dir_names staged rest with
      | Except.error e => Except.error e
      | Except.ok there => Except.ok (here ++ there)

/-- Duplicate scan over the staged directory names, mirroring the nested
loop "Check new dirs for duplicates" in `Grunt::update_addons`. -/
def has_dup_loop : List String → Bool
  | [] => false
  | d :: rest => rest.contains d || has_dup_loop rest

/-- Directories owned by the addons whose index is not in the update set,
mirroring the `untouched_dirs` computation in `Grunt::update_addons`. -/
def untouched_dirs (addons : List Addon) (outdated_indexes : List Nat) : List String :=
  (addons.enum.filter (fun p => !outdated_indexes.contains p.1)).flatMap
    (fun p => p.2.dirs)

/-- Deletion loop of the commit phase: each directory owned by an updated
addon is deleted if it is currently on disk, emitting one `delete_dir`
action per actual deletion. -/
def remove_old_dirs (root_dirs : List String) :
    List String → List FsOp × List String
  | [] => ([], root_dirs)
  | d :: rest =>
    if root_dirs.contains d then
      let r := remove_old_dirs (root_dirs.erase d) rest
      (FsOp.delete_dir d :: r.1, r.2)
    else remove_old_dirs root_dirs rest

/-- Install loop of the commit phase as it affects the top level of the
root: copying the staged trees creates each staged top-level directory
(creation is idempotent for a name already present). -/
def install_new_dirs (root_dirs : List String) (new_dirs : List String) : List String :=
  new_dirs.foldl (fun acc d => if acc.contains d then acc else acc ++ [d]) root_dirs

/-- Finalize loop of `Grunt::update_addons` (lines 461-473): each updated
addon record gets the staged top-level directory entries (filtered to
directories) as its new `dirs`, and the fetched version string as its new
`version`. -/
def apply_finalize (staged : Nat → List StagedEntry) :
    List Addon → List (Nat × String) → List Addon
  | addons, [] => addons
  | addons, (i, v) :: rest =>
    let addons' :=
      match addons[i]? with
      | some a =>
        addons.set i
          { a with
            dirs := ((staged i).filter (fun e => !e.is_file)).map StagedEntry.name
            version := v }
      | none => addons
    apply_finalize staged addons' rest

/-- Embedding of `Grunt::update_addons` from the point where the confirmed
update set is known and every download has been unpacked into its staging
directory (src/lib.rs lines 383-474).  `outdated` carries, per confirmed
update, the addon index and the fetched version string; `staged i` lists the
top-level entries unpacked for index `i`.  The result pairs the sequence of
filesystem actions actually performed on the addon root with either the
panic that aborted the cycle (in which case no action was performed) or the
updated manager state. -/
def Grunt.update_addons_commit (g : Grunt) (outdated : List (Nat × String))
    (staged : Nat → List StagedEntry) : List FsOp × Except String Grunt :=
  match outdated.mapM (fun p =>
      match g.addons[p.1]? with
      | some a => Except.ok a
      | none => Except.error "no addon at outdated index") with
  | Except.error e => ([], Except.error e)
  | Except.ok outdated_addons =>
    let dirs_to_remove := outdated_addons.flatMap Addon.dirs
    let outdated_indexes := outdated.map Prod.fst
    let untouched := untouched_dirs g.addons outdated_indexes
    match staged_dir_names staged outdated_indexes with
    | Except.error e => ([], Except.error e)
    | Except.ok new_dirs =>
      if has_dup_loop new_dirs then ([], Except.error "Dir conflict")
      else if new_dirs.any (fun d => untouched.contains d) then
        ([], Except.error "Dir conflict")
      else
        let deleted := remove_old_dirs g.root_dirs dirs_to_remove
        let final_dirs := install_new_dirs deleted.2 new_dirs
        let addons' := apply_finalize staged g.addons outdated
        (deleted.1 ++ outdated_indexes.map FsOp.copy_tree,
          Except.ok { addons := addons', root_dirs := final_dirs })

/-! ## Fingerprint match mapping (src/lib.rs, `Grunt::resolve_curse`) -/

/-- Mapping of one exact fingerprint match back to a local directory
(src/lib.rs lines 734-746): take the fingerprint of the last module of the
match's file record, find the position of the first computed aggregate
fingerprint equal to it, and name the new addon after the untracked
directory at that position.  The `Except.error` cases model the `unwrap`
panics on an empty module list, an unmatched fingerprint and an
out-of-range index. -/
def match_to_addon (untracked : List String) (fingerprints : List Nat)
    (mat : AddonFingerprintInfo) : Except String Addon :=
  match mat.file.modules.getLast? with
  | none => Except.error "match has no modules"
  | some m =>
    match fingerprints.findIdx? (fun x => x = m.fingerprint) with
    | none => Except.error "fingerprint not found"
    | some index =>
      match untracked[index]? with
      | none => Except.error "untracked index out of range"
      | some name => Except.ok (Addon.from_curse_info name mat)

/-- Map of all exact matches of a fingerprint-search response to new
addons, mirroring the final `map` of `Grunt::resolve_curse`. -/
def resolve_curse_matches (untracked : List String) (fingerprints : List Nat)
    (mats : List AddonFingerprintInfo) : Except String (List Addon) :=
  mats.mapM (match_to_addon untracked fingerprints)

/-! ## Case-insensitive path resolution (src/lib.rs, `find_file`) -/

/-- Directory tree model for `find_file`: a node carries its child entries
as (name, subtree) pairs, in directory iteration order. -/
inductive FsTree where
  | node (children : List (String × FsTree))

/-- Child list of a tree node. -/
def FsTree.children : FsTree → List (String × FsTree)
  | FsTree.node cs => cs

/-- Model of Rust `to_ascii_lowercase`. -/
def to_ascii_lowercase (s : String) : String :=
  String.mk (s.data.map (fun c =>
    if 'A' ≤ c ∧ c ≤ 'Z' then Char.ofNat (c.toNat + 32) else c))

/-- Descent loop of `find_file` (src/lib.rs lines 801-819): at each level,
find the first child whose name matches the wanted segment
case-insensitively and descend into it; the `unwrap` panic when no child
matches is modelled as an error.  Returns the real on-disk segment names.-/
def find_file_descend : FsTree → List String → Except String (List String)
  | _, [] => Except.ok []
  | FsTree.node children, seg :: rest =>
    match children.find? (fun c =>
        to_ascii_lowercase c.1 = to_ascii_lowercase seg) with
    | none => Except.error "PathNotFound"
    | some c =>
      match find_file_descend c.2 rest with
      | Except.error e => Except.error e
      | Except.ok r => Except.ok (c.1 :: r)

/-- Number of children of a node matching a segment case-insensitively. -/
def count_matches (children : List (String × FsTree)) (seg : String) : Nat :=
  (children.filter (fun c => to_ascii_lowercase c.1 = to_ascii_lowercase seg)).length

/-- Modelled from the spec: the spec requires `find_file` to succeed exactly
when every required segment has exactly one case-insensitive match among the
current directory's children.  `UniqueDescent t segs real` says that the
wanted segments `segs` descend through `t` with exactly one match at every
level, the matching names being `real`. -/
inductive UniqueDescent : FsTree → List String → List String → Prop where
  | nil (t : FsTree) : UniqueDescent t [] []
  | cons {children : List (String × FsTree)} {seg : String} {rest : List String}
      {name : String} {child : FsTree} {real : List String} :
      (name, child) ∈ children →
      to_ascii_lowercase name = to_ascii_lowercase seg →
      count_matches children seg = 1 →
      UniqueDescent child rest real →
      UniqueDescent (FsTree.node children) (seg :: rest) (name :: real)

/-! ## Hashing and aggregate fingerprints (src/lib.rs lines 706-728) -/

/-- Reduction of a value to 32 bits. -/
def mask32 (x : Nat) : Nat := x % 4294967296

namespace murmur2

/-- Multiplication constant of 32-bit MurmurHash2. -/
def mc : Nat := 0x5bd1e995

/-- Main mixing loop of 32-bit MurmurHash2: consume the data four
little-endian bytes at a time, then fold the up-to-three trailing bytes
into the state. -/
def mix_body (h : Nat) : List Nat → Nat
  | b0 :: b1 :: b2 :: b3 :: rest =>
    let k := b0 + 256 * b1 + 65536 * b2 + 16777216 * b3
    let k := mask32 (k * mc)
    let k := k ^^^ (k >>> 24)
    let k := mask32 (k * mc)
    let h := mask32 (h * mc)
    mix_body (h ^^^ k) rest
  | [b0, b1, b2] => mask32 ((h ^^^ (b2 <<< 16) ^^^ (b1 <<< 8) ^^^ b0) * mc)
  | [b0, b1] => mask32 ((h ^^^ (b1 <<< 8) ^^^ b0) * mc)
  | [b0] => mask32 ((h ^^^ b0) * mc)
  | [] => h

/-- Modelled from the spec: the source file src/murmur2.rs (`mod murmur2`,
`murmur2::calculate_hash`) is not part of the provided sources; spec section
4.1 fixes it as the classic 32-bit variant of the MurmurHash2 family,
`hash(bytes, seed) -> u32`, used with seed 1 for every call.  This is that
algorithm over byte lists, with `Nat` arithmetic masked to 32 bits. -/
def calculate_hash (data : List Nat) (seed : Nat) : Nat :=
  let h := mask32 (seed ^^^ data.length)
  let h := mix_body h data
  let h := h ^^^ (h >>> 13)
  let h := mask32 (h * mc)
  h ^^^ (h >>> 15)

end murmur2

/-- UTF-8 bytes of a string, as naturals (model of Rust `str::as_bytes`). -/
def string_bytes (s : String) : List Nat :=
  s.toUTF8.toList.map UInt8.toNat

/-- Aggregate fingerprint of a directory from its file fingerprints
(src/lib.rs lines 720-727): sort ascending, render each as a decimal
string, concatenate with no separator, and hash the result with seed 1.
Rust `Vec::sort` is modelled by insertion sort, which produces the same
ascending reordering. -/
def aggregate_fingerprint (fps : List Nat) : Nat :=
  let sorted := List.insertionSort (· ≤ ·) fps
  let to_hash := String.join (sorted.map (fun val => toString val))
  murmur2.calculate_hash (string_bytes to_hash) 1

/-! ## Fingerprint search sanity check (src/curse.rs) -/

/-- Minimal JSON value model for the `serde_json::Value` fields of the
fingerprint-search response. -/
inductive Json where
  | null
  | bool (b : Bool)
  | num (n : Int)
  | str (s : String)
  | arr (elems : List Json)
  | obj (fields : List (String × Json))

/-- Model of `serde_json::Value::as_object`. -/
def Json.as_object : Json → Option (List (String × Json))
  | Json.obj fields => some fields
  | _ => none

/-- Fingerprint-search response, from `FingerprintInfo` in src/curse.rs. -/
structure FingerprintInfo where
  is_cache_built : Bool
  exact_matches : List AddonFingerprintInfo
  exact_fingerprints : List Nat
  partial_matches : List Json
  partial_match_fingerprints : Json
  installed_fingerprints : List Nat
  unmatched_fingerprints : List Nat

/-- Embedding of the response handling of `CurseAPI::fingerprint_search`
(src/curse.rs lines 28-36): after decoding, assert that the partial-match
bucket is an empty object, and only then hand the response back unchanged.
The failed `unwrap`/`assert` panics are modelled as errors. -/
def fingerprint_search (info : FingerprintInfo) : Except String FingerprintInfo :=
  match info.partial_match_fingerprints.as_object with
  | none => Except.error "partial match fingerprints is not an object"
  | some fields =>
    if fields.isEmpty then Except.ok info
    else Except.error "assertion failed: partial match bucket is not empty"

/-! ## Operation sequences preceding a manifest save (src/lib.rs) -/

/-- Left-to-right model of Rust `str::split(',')`: the segments between
commas, always at least one segment. -/
def split_commas : List Char → List (List Char)
  | [] => [[]]
  | c :: rest =>
    if c = ',' then [] :: split_commas rest
    else
      match split_commas rest with
      | [] => [[c]]
      | h :: t => (c :: h) :: t

/-- Directory list parsed from an `X-Tukui-ProjectFolders` descriptor line
(src/lib.rs lines 152-158): split on commas and trim each piece. -/
def toc_project_folders (s : String) : List String :=
  (split_commas s.data).map (fun cs => (String.mk cs).trim)

/-- Sequential deletion of a list of owned directories, as in
`Grunt::remove_addons`: `remove_dir_all` on a name that is not on disk is a
panic (`none`). -/
def delete_dirs_all (root_dirs : List String) : List String → Option (List String)
  | [] => some root_dirs
  | d :: rest =>
    if root_dirs.contains d then delete_dirs_all (root_dirs.erase d) rest
    else none

/-- Loop of `Grunt::remove_addons` (src/lib.rs lines 503-515): look up each
named addon (panicking when absent), drop its record and delete its owned
directories from disk. -/
def remove_addons_go : Grunt → List String → Option Grunt
  | g, [] => some g
  | g, n :: rest =>
    match g.addons.findIdx? (fun a => a.name = n) with
    | none => none
    | some i =>
      match g.addons[i]? with
      | none => none
      | some addon =>
        match delete_dirs_all g.root_dirs addon.dirs with
        | none => none
        | some root' =>
          remove_addons_go { addons := g.addons.eraseIdx i, root_dirs := root' } rest

/-- Mutating operation that can run between loading and saving the
manifest: the addon-producing branches of `Grunt::resolve`, the update
pipeline, addon removal and untracked-directory removal.  The network- and
disk-supplied inputs of each operation appear as parameters. -/
inductive GruntOp where
  | resolve_tsm (version : String)
  | resolve_tsm_helper (version : String)
  | resolve_tukui (name : String) (id : Int) (folders_line : String) (version : String)
  | resolve_curse_match (name : String) (info : AddonFingerprintInfo)
  | update (outdated : List (Nat × String)) (staged : Nat → List StagedEntry)
  | remove_addons (names : List String)
  | remove_dirs (dirs : List String)

/-- Effect of one operation on the manager state; `none` models a panic,
after which no manifest save happens. -/
def apply_op (g : Grunt) : GruntOp → Option Grunt
  | GruntOp.resolve_tsm version =>
    if g.find_untracked.contains "TradeSkillMaster" then
      some { g with addons := g.addons ++ [Addon.init_tsm version] }
    else some g
  | GruntOp.resolve_tsm_helper version =>
    if g.find_untracked.contains "TradeSkillMaster_AppHelper" then
      some { g with addons := g.addons ++ [Addon.init_tsm_helper version] }
    else some g
  | GruntOp.resolve_tukui name id folders_line version =>
    some { g with addons :=
      g.addons ++ [Addon.from_tukui_info name id (toc_project_folders folders_line) version] }
  | GruntOp.resolve_curse_match name info =>
    match info.file.modules.getLast? with
    | none => none
    | some _ => some { g with addons := g.addons ++ [Addon.from_curse_info name info] }
  | GruntOp.update outdated staged =>
    match (g.update_addons_commit outdated staged).2 with
    | Except.error _ => none
    | Except.ok g' => some g'
  | GruntOp.remove_addons names => remove_addons_go g names
  | GruntOp.remove_dirs dirs =>
    let r := g.remove_dirs dirs
    if r.2 then some { g with root_dirs := r.1 } else none

/-- Sequential execution of a list of operations. -/
def run_ops (g : Grunt) : List GruntOp → Option Grunt
  | [] => some g
  | op :: rest =>
    match apply_op g op with
    | none => none
    | some g' => run_ops g' rest

/-- Side condition of the amended persistence invariant: every staged
update directory of an `update` operation has at least one top-level
entry. -/
def op_staging_nonempty : GruntOp → Prop
  | GruntOp.update outdated staged => ∀ i ∈ outdated.map Prod.fst, staged i ≠ []
  | _ => True

/-! ## Helper lemmas -/

theorem contains_iff_mem {l : List String} {a : String} :
    l.contains a = true ↔ a ∈ l := by
  simp [List.contains, List.elem_iff]

theorem remove_dirs_go_spec (untracked : List String) (ds : List String) :
    ∀ rd : List String,
      (∀ d, d ∈ rd → d ∉ (remove_dirs_go untracked rd ds).1 → d ∈ untracked)
      ∧ (∀ d, d ∈ ds → d ∉ untracked → d ∈ rd →
          d ∈ (remove_dirs_go untracked rd ds).1
          ∧ (remove_dirs_go untracked rd ds).2 = false) := by
  induction ds with
  | nil =>
    intro rd
    refine ⟨?_, ?_⟩
    · intro d hd hnot
      exact absurd hd hnot
    · intro d hd
      simp at hd
  | cons d0 rest ih =>
    intro rd
    by_cases h1 : d0 ∈ untracked
    · by_cases h2 : d0 ∈ rd
      · have hgo : remove_dirs_go untracked rd (d0 :: rest)
            = remove_dirs_go untracked (rd.erase d0) rest := by
          simp [remove_dirs_go, h1, h2]
        rw [hgo]
        refine ⟨?_, ?_⟩
        · intro d hd hnot
          by_cases hdd : d = d0
          · subst hdd
            exact h1
          · exact (ih (rd.erase d0)).1 d ((List.mem_erase_of_ne hdd).mpr hd) hnot
        · intro d hd hdu hdr
          have hdd : d ≠ d0 := fun hh => hdu (hh ▸ h1)
          have hrest : d ∈ rest := by
            rcases List.mem_cons.mp hd with hh | hh
            · exact absurd hh hdd
            · exact hh
          exact (ih (rd.erase d0)).2 d hrest hdu ((List.mem_erase_of_ne hdd).mpr hdr)
      · have hgo : remove_dirs_go untracked rd (d0 :: rest) = (rd, false) := by
          simp [remove_dirs_go, h1, h2]
        rw [hgo]
        exact ⟨fun d hd hnot => absurd hd hnot, fun d hd hdu hdr => ⟨hdr, rfl⟩⟩
    · have hgo : remove_dirs_go untracked rd (d0 :: rest) = (rd, false) := by
        simp [remove_dirs_go, h1]
      rw [hgo]
      exact ⟨fun d hd hnot => absurd hd hnot, fun d hd hdu hdr => ⟨hdr, rfl⟩⟩

/-! ## Claim theorems -/

/-- C1: the claim says saving then loading a manifest restores every addon
field including the version.  The `AddonInfo` record declared in
src/lockfile.rs carries no `version` field, while `Addon::to_info` and
`Addon::from_info` (src/addon.rs) write and read one — the code contradicts
itself (it cannot type-check as written).  Concretely, two addons differing
only in their version map to the same manifest record, so no load procedure
can restore the version: the round trip is impossible as claimed. -/
theorem c1_version_not_persisted :
    Addon.to_info
        { name := "A", addon_type := AddonType.Curse, addon_id := "1",
          version := "2", dirs := ["A"] }
      = Addon.to_info
        { name := "A", addon_type := AddonType.Curse, addon_id := "1",
          version := "3", dirs := ["A"] }
    ∧ ({ name := "A", addon_type := AddonType.Curse, addon_id := "1",
         version := "2", dirs := ["A"] } : Addon)
      ≠ { name := "A", addon_type := AddonType.Curse, addon_id := "1",
          version := "3", dirs := ["A"] } :=
  ⟨rfl, by decide⟩

/-- C8: the aggregate fingerprint (sort ascending, render as decimal
strings, concatenate, hash with seed 1) is invariant under every
permutation of the input fingerprint list. -/
theorem c8_aggregate_fingerprint_perm_invariant (l l' : List Nat)
    (h : l.Perm l') : aggregate_fingerprint l = aggregate_fingerprint l' := by
  unfold aggregate_fingerprint
  have hs : List.insertionSort (· ≤ ·) l = List.insertionSort (· ≤ ·) l' :=
    List.eq_of_perm_of_sorted
      (((List.perm_insertionSort _ l).trans h).trans
        (List.perm_insertionSort _ l').symm)
      (List.sorted_insertionSort _ l) (List.sorted_insertionSort _ l')
  rw [hs]

/-- Witness for C8 at the permuted lists [3, 1, 2] and [2, 3, 1]. -/
theorem c8_witness :
    ([3, 1, 2] : List Nat).Perm [2, 3, 1]
    ∧ aggregate_fingerprint [3, 1, 2] = aggregate_fingerprint [2, 3, 1] :=
  ⟨by decide, c8_aggregate_fingerprint_perm_invariant _ _ (by decide)⟩

/-- C9: `fingerprint_search` fails whenever the partial-match bucket of the
response is a non-empty object, and returns the response unchanged when the
bucket is empty. -/
theorem c9_fingerprint_search_partial_bucket (info : FingerprintInfo)
    (fields : List (String × Json))
    (h : info.partial_match_fingerprints = Json.obj fields) :
    (fields ≠ [] → ∃ e, fingerprint_search info = Except.error e)
    ∧ (fields = [] → fingerprint_search info = Except.ok info) := by
  refine ⟨fun hne => ?_, fun he => ?_⟩
  · refine ⟨"assertion failed: partial match bucket is not empty", ?_⟩
    unfold fingerprint_search
    rw [h]
    have hemp : fields.isEmpty = false := by
      cases fields with
      | nil => exact absurd rfl hne
      | cons a t => rfl
    simp [Json.as_object, hemp]
  · subst he
    unfold fingerprint_search
    rw [h]
    rfl

/-- Witness for C9: a one-entry partial-match bucket is rejected, an empty
one is passed through. -/
theorem c9_witness :
    (∃ e, fingerprint_search
        { is_cache_built := true, exact_matches := [], exact_fingerprints := [],
          partial_matches := [],
          partial_match_fingerprints := Json.obj [("5", Json.null)],
          installed_fingerprints := [], unmatched_fingerprints := [] }
      = Except.error e)
    ∧ fingerprint_search
        { is_cache_built := true, exact_matches := [], exact_fingerprints := [],
          partial_matches := [], partial_match_fingerprints := Json.obj [],
          installed_fingerprints := [], unmatched_fingerprints := [] }
      = Except.ok
        { is_cache_built := true, exact_matches := [], exact_fingerprints := [],
          partial_matches := [], partial_match_fingerprints := Json.obj [],
          installed_fingerprints := [], unmatched_fingerprints := [] } :=
  ⟨(c9_fingerprint_search_partial_bucket _ [("5", Json.null)] rfl).1 (by simp),
    (c9_fingerprint_search_partial_bucket _ [] rfl).2 rfl⟩

/-- C10: `remove_dirs` never deletes a directory owned by a tracked addon:
a top-level directory disappears from disk only if it was in the untracked
set computed at the start of the call, and a requested name that is tracked
survives on disk while the operation fails. -/
theorem c10_remove_dirs_safety (g : Grunt) (ds : List String) :
    (∀ d, d ∈ g.root_dirs → d ∉ (g.remove_dirs ds).1 → d ∈ g.find_untracked)
    ∧ (∀ d, d ∈ ds → d ∉ g.find_untracked → d ∈ g.root_dirs →
        d ∈ (g.remove_dirs ds).1 ∧ (g.remove_dirs ds).2 = false) :=
  remove_dirs_go_spec g.find_untracked ds g.root_dirs

/-- Witness for C10: requesting deletion of a directory owned by a tracked
addon fails and the directory survives. -/
theorem c10_witness :
    "PDir" ∈ (Grunt.remove_dirs
        { addons := [{ name := "P", addon_type := AddonType.Curse,
                       addon_id := "1", version := "1", dirs := ["PDir"] }],
          root_dirs := ["PDir", "Junk"] } ["PDir"]).1
    ∧ (Grunt.remove_dirs
        { addons := [{ name := "P", addon_type := AddonType.Curse,
                       addon_id := "1", version := "1", dirs := ["PDir"] }],
          root_dirs := ["PDir", "Junk"] } ["PDir"]).2 = false :=
  (c10_remove_dirs_safety _ _).2 "PDir" (by decide) (by decide) (by decide)

theorem has_dup_loop_eq_false_iff (l : List String) :
    has_dup_loop l = false ↔ l.Nodup := by
  induction l with
  | nil => simp [has_dup_loop]
  | cons d rest ih => simp [has_dup_loop, List.nodup_cons, ih]

/-- C2: if the staged updates were unpacked successfully and either two
staged top-level directory names coincide or a staged name collides with a
directory owned by an addon outside the update set, then the commit phase
of `Grunt::update_addons` performs no filesystem action at all (no deletion
and no install) and aborts with an error, so every on-disk addon directory
and every addon record is left unchanged. -/
theorem c2_update_conflict_aborts (g : Grunt) (outdated : List (Nat × String))
    (staged : Nat → List StagedEntry) (new_dirs : List String)
    (hstage : staged_dir_names staged (outdated.map Prod.fst) = Except.ok new_dirs)
    (hcol : ¬ new_dirs.Nodup
        ∨ ∃ d ∈ new_dirs, d ∈ untouched_dirs g.addons (outdated.map Prod.fst)) :
    (g.update_addons_commit outdated staged).1 = []
    ∧ ∃ e, (g.update_addons_commit outdated staged).2 = Except.error e := by
  unfold Grunt.update_addons_commit
  split
  · exact ⟨rfl, _, rfl⟩
  · dsimp only
    rw [hstage]
    by_cases hdup : has_dup_loop new_dirs = true
    · simp [hdup]
    · have hnd : new_dirs.Nodup :=
        (has_dup_loop_eq_false_iff new_dirs).mp (Bool.not_eq_true _ ▸ hdup)
      rcases hcol with hcol | hex
      · exact absurd hnd hcol
      · simp only [Bool.not_eq_true] at hdup
        simp [hdup, hex]

/-- Witness for C2, the end-to-end scenario of the spec: the staged update
for addon P introduces the directory Shared which addon Q (not being
updated) already owns; the cycle aborts with no filesystem action. -/
theorem c2_witness :
    (Grunt.update_addons_commit
        { addons := [{ name := "P", addon_type := AddonType.Curse,
                       addon_id := "1", version := "1", dirs := ["PDir"] },
                     { name := "Q", addon_type := AddonType.Curse,
                       addon_id := "2", version := "1", dirs := ["Shared"] }],
          root_dirs := ["PDir", "Shared"] }
        [(0, "2")]
        (fun i => if i = 0 then [{ name := "Shared", is_file := false }] else [])).1
      = []
    ∧ ∃ e, (Grunt.update_addons_commit
        { addons := [{ name := "P", addon_type := AddonType.Curse,
                       addon_id := "1", version := "1", dirs := ["PDir"] },
                     { name := "Q", addon_type := AddonType.Curse,
                       addon_id := "2", version := "1", dirs := ["Shared"] }],
          root_dirs := ["PDir", "Shared"] }
        [(0, "2")]
        (fun i => if i = 0 then [{ name := "Shared", is_file := false }] else [])).2
      = Except.error e :=
  c2_update_conflict_aborts _ _ _ ["Shared"] rfl
    (Or.inr ⟨"Shared", by decide, by decide⟩)

theorem plan_outdated_go_mem (src : PlanSources) :
    ∀ (l : List (Nat × Addon)) (us : List Updateable),
      plan_outdated_go src l = Except.ok us →
      ∀ u, u ∈ us ↔ ∃ ia ∈ l, plan_step src ia.1 ia.2 = Except.ok (some u) := by
  intro l
  induction l with
  | nil =>
    intro us h u
    simp only [plan_outdated_go, Except.ok.injEq] at h
    subst h
    simp
  | cons ia rest ih =>
    intro us h u
    rw [plan_outdated_go] at h
    cases hr : plan_step src ia.1 ia.2 with
    | error e => rw [hr] at h; cases h
    | ok r =>
      rw [hr] at h
      cases hrs : plan_outdated_go src rest with
      | error e => rw [hrs] at h; cases h
      | ok rs =>
        rw [hrs] at h
        have hmem := ih rs hrs
        cases r with
        | some u' =>
          have hus : us = u' :: rs := (Except.ok.inj h).symm
          subst hus
          constructor
          · intro hu
            rcases List.mem_cons.mp hu with hu | hu
            · exact ⟨ia, List.mem_cons_self ia rest, hu ▸ hr⟩
            · rcases (hmem u).mp hu with ⟨ia', hia', hstep⟩
              exact ⟨ia', List.mem_cons_of_mem ia hia', hstep⟩
          · rintro ⟨ia', hia', hstep⟩
            rcases List.mem_cons.mp hia' with hia' | hia'
            · subst hia'
              rw [hr] at hstep
              have : u' = u := Option.some.inj (Except.ok.inj hstep)
              exact this ▸ List.mem_cons_self u' rs
            · exact List.mem_cons_of_mem u' ((hmem u).mpr ⟨ia', hia', hstep⟩)
        | none =>
          have hus : us = rs := (Except.ok.inj h).symm
          subst hus
          constructor
          · intro hu
            rcases (hmem u).mp hu with ⟨ia', hia', hstep⟩
            exact ⟨ia', List.mem_cons_of_mem ia hia', hstep⟩
          · rintro ⟨ia', hia', hstep⟩
            rcases List.mem_cons.mp hia' with hia' | hia'
            · subst hia'
              rw [hr] at hstep
              cases Except.ok.inj hstep
            · exact (hmem u).mpr ⟨ia', hia', hstep⟩

theorem plan_step_index (src : PlanSources) (i : Nat) (a : Addon) (u : Updateable)
    (h : plan_step src i a = Except.ok (some u)) : u.index = i := by
  unfold plan_step at h
  cases hty : a.addon_type
  · cases hp : parse_i64 a.version
    · simp only [hty, hp] at h
      cases h
    · cases hl : src.latest_curse a.addon_id with
      | none =>
        simp only [hty, hp, hl] at h
        cases h
      | some p =>
        obtain ⟨lat, url⟩ := p
        simp only [hty, hp, hl] at h
        split at h
        · exact (congrArg Updateable.index (Option.some.inj (Except.ok.inj h))).symm
        · cases Except.ok.inj h
  · cases hl : (if a.addon_id = "-2" then some src.elvui
        else src.latest_tukui a.addon_id) with
    | none =>
      simp only [hty, hl] at h
      cases h
    | some p =>
      obtain ⟨lat, url⟩ := p
      simp only [hty, hl] at h
      split at h
      · exact (congrArg Updateable.index (Option.some.inj (Except.ok.inj h))).symm
      · cases Except.ok.inj h
  · simp only [hty] at h
    cases Except.ok.inj h

/-- C3 (amended): in the plan step of `update_addons`, a tracked Curse
addon enters the candidate update set iff the returned numeric file id is
strictly greater than the stored one, and a tracked Tukui addon enters the
set iff the returned version string is strictly greater than the stored one
in lexicographic byte order — not merely different from it, as the claim
stated. -/
theorem c3_plan_membership (g : Grunt) (src : PlanSources) (us : List Updateable)
    (i : Nat) (a : Addon)
    (hok : g.plan_outdated src = Except.ok us)
    (ha : g.addons[i]? = some a) :
    (∀ (cur lat : Int) (url : String), a.addon_type = AddonType.Curse →
        parse_i64 a.version = some cur →
        src.latest_curse a.addon_id = some (lat, url) →
        ((∃ u ∈ us, u.index = i) ↔ cur < lat))
    ∧ (∀ (lat url : String), a.addon_type = AddonType.Tukui →
        (if a.addon_id = "-2" then some src.elvui
         else src.latest_tukui a.addon_id) = some (lat, url) →
        ((∃ u ∈ us, u.index = i) ↔ a.version < lat)) := by
  have hmem := plan_outdated_go_mem src g.addons.enum us hok
  have hia : (i, a) ∈ g.addons.enum := List.mem_enum_iff_getElem?.mpr ha
  constructor
  · intro cur lat url hty hp hl
    constructor
    · rintro ⟨u, hu, hui⟩
      rcases (hmem u).mp hu with ⟨ia', hia', hstep⟩
      have hidx : u.index = ia'.1 := plan_step_index src ia'.1 ia'.2 u hstep
      have h1 : ia'.1 = i := by rw [← hidx, hui]
      have h2 : ia'.2 = a := by
        have hthis := List.mem_enum_iff_getElem?.mp hia'
        rw [h1, ha] at hthis
        exact (Option.some.inj hthis).symm
      rw [h1, h2] at hstep
      unfold plan_step at hstep
      simp only [hty, hp, hl] at hstep
      by_cases hc : cur < lat
      · exact hc
      · rw [if_neg hc] at hstep
        cases Except.ok.inj hstep
    · intro hc
      refine ⟨{ index := i, name := a.name, new_version := toString lat,
                url := url }, ?_, rfl⟩
      refine (hmem _).mpr ⟨(i, a), hia, ?_⟩
      unfold plan_step
      simp only [hty, hp, hl]
      rw [if_pos hc]
  · intro lat url hty hl
    constructor
    · rintro ⟨u, hu, hui⟩
      rcases (hmem u).mp hu with ⟨ia', hia', hstep⟩
      have hidx : u.index = ia'.1 := plan_step_index src ia'.1 ia'.2 u hstep
      have h1 : ia'.1 = i := by rw [← hidx, hui]
      have h2 : ia'.2 = a := by
        have hthis := List.mem_enum_iff_getElem?.mp hia'
        rw [h1, ha] at hthis
        exact (Option.some.inj hthis).symm
      rw [h1, h2] at hstep
      unfold plan_step at hstep
      simp only [hty, hl] at hstep
      by_cases hc : a.version < lat
      · exact hc
      · rw [if_neg hc] at hstep
        cases Except.ok.inj hstep
    · intro hc
      refine ⟨{ index := i, name := a.name, new_version := lat,
                url := url }, ?_, rfl⟩
      refine (hmem _).mpr ⟨(i, a), hia, ?_⟩
      unfold plan_step
      simp only [hty, hl]
      rw [if_pos hc]

/-- Counterexample for C3 as stated: a Tukui addon whose stored version
"2.0" differs from the returned version "1.0" is NOT placed in the
candidate set (the code compares with lexicographic greater-than, not with
inequality), so "differs at all" does not trigger an update. -/
theorem c3_counterexample :
    Grunt.plan_outdated
        { addons := [{ name := "Tukui7", addon_type := AddonType.Tukui,
                       addon_id := "7", version := "2.0", dirs := ["T"] }],
          root_dirs := ["T"] }
        { latest_curse := fun _ => none,
          latest_tukui := fun id => if id = "7" then some ("1.0", "u") else none,
          elvui := ("", "") }
      = Except.ok []
    ∧ ("1.0" : String) ≠ "2.0" := by
  have hlt : ¬ ("2.0" : String) < "1.0" := by
    rw [String.lt_iff_toList_lt]
    decide
  refine ⟨?_, by decide⟩
  unfold Grunt.plan_outdated
  simp [plan_outdated_go, plan_step, hlt]

/-- Witness for C3 (amended): a Curse addon with stored file id 1 and
returned latest file id 2 is placed in the candidate set. -/
theorem c3_witness :
    ∃ u ∈ [{ index := 0, name := "C", new_version := "2",
             url := "u" : Updateable }], u.index = 0 := by
  have h := (c3_plan_membership
      { addons := [{ name := "C", addon_type := AddonType.Curse,
                     addon_id := "5", version := "1", dirs := ["C"] }],
        root_dirs := ["C"] }
      { latest_curse := fun id => if id = "5" then some ((2 : Int), "u") else none,
        latest_tukui := fun _ => none,
        elvui := ("", "") }
      [{ index := 0, name := "C", new_version := "2", url := "u" }]
      0
      { name := "C", addon_type := AddonType.Curse,
        addon_id := "5", version := "1", dirs := ["C"] }
      rfl rfl).1 1 2 "u" rfl rfl rfl
  exact h.mpr (by decide)

theorem findIdx_first_eq (fp : Nat) :
    ∀ (l : List Nat) (j : Nat), l[j]? = some fp →
      (∀ k, k < j → l[k]? ≠ some fp) →
      l.findIdx? (fun x => x = fp) = some j := by
  intro l
  induction l with
  | nil =>
    intro j hj _
    simp at hj
  | cons a as ih =>
    intro j hj hk
    cases j with
    | zero =>
      have ha : a = fp := by simpa using hj
      simp [List.findIdx?_cons, ha]
    | succ j' =>
      have ha : ¬(a = fp) := by
        have h0 := hk 0 (Nat.succ_pos j')
        simpa using h0
      have hj' : as[j']? = some fp := by simpa using hj
      have hk' : ∀ k, k < j' → as[k]? ≠ some fp := by
        intro k hkj
        have hkk := hk (k + 1) (Nat.succ_lt_succ hkj)
        simpa using hkk
      have hrec := ih j' hj' hk'
      simp [List.findIdx?_cons, ha, List.findIdx?_succ, hrec]

/-- C4: for an exact fingerprint match, the new addon is produced without
failing and is named after the untracked directory at the first position
whose aggregate fingerprint equals the fingerprint of the last module entry
of the match's file record; with several equal fingerprints the first in
discovery order wins deterministically. -/
theorem c4_match_mapped_to_first_dir (untracked : List String)
    (fingerprints : List Nat) (mat : AddonFingerprintInfo) (m : CurseModule)
    (j : Nat) (name : String)
    (hm : mat.file.modules.getLast? = some m)
    (hj : fingerprints[j]? = some m.fingerprint)
    (hfirst : ∀ k, k < j → fingerprints[k]? ≠ some m.fingerprint)
    (hname : untracked[j]? = some name) :
    match_to_addon untracked fingerprints mat
      = Except.ok (Addon.from_curse_info name mat)
    ∧ (Addon.from_curse_info name mat).name = name := by
  have hidx := findIdx_first_eq m.fingerprint fingerprints j hj hfirst
  unfold match_to_addon
  simp only [hm, hidx, hname]
  exact ⟨trivial, rfl⟩

/-- Witness for C4: two byte-identical untracked directories X and Y both
carry fingerprint 5; the match resolves deterministically to X, the first
in discovery order. -/
theorem c4_witness :
    match_to_addon ["X", "Y"] [5, 5]
        { id := 3, file := { id := 9, modules :=
            [{ foldername := "dirA", fingerprint := 5, type_field := 3 }] } }
      = Except.ok (Addon.from_curse_info "X"
        { id := 3, file := { id := 9, modules :=
            [{ foldername := "dirA", fingerprint := 5, type_field := 3 }] } })
    ∧ (Addon.from_curse_info "X"
        { id := 3, file := { id := 9, modules :=
            [{ foldername := "dirA", fingerprint := 5, type_field := 3 }] } }).name
      = "X" :=
  c4_match_mapped_to_first_dir ["X", "Y"] [5, 5] _ _ 0 "X" rfl rfl
    (fun k hk => absurd hk (Nat.not_lt_zero k)) rfl

theorem find_unique_match (seg : String) :
    ∀ (children : List (String × FsTree)) (name : String) (child : FsTree),
      (name, child) ∈ children →
      to_ascii_lowercase name = to_ascii_lowercase seg →
      count_matches children seg = 1 →
      children.find? (fun c => to_ascii_lowercase c.1 = to_ascii_lowercase seg)
        = some (name, child) := by
  intro children
  induction children with
  | nil =>
    intro name child hmem
    simp at hmem
  | cons hd tl ih =>
    intro name child hmem hmatch hcount
    by_cases hhd : to_ascii_lowercase hd.1 = to_ascii_lowercase seg
    · have htl : count_matches tl seg = 0 := by
        unfold count_matches at hcount ⊢
        rw [List.filter_cons_of_pos (by simpa using hhd)] at hcount
        simpa using hcount
      have hdeq : (name, child) = hd := by
        rcases List.mem_cons.mp hmem with hh | hh
        · exact hh
        · exfalso
          have hin : (name, child) ∈ tl.filter
              (fun c => to_ascii_lowercase c.1 = to_ascii_lowercase seg) :=
            List.mem_filter.mpr ⟨hh, by simpa using hmatch⟩
          rw [List.length_eq_zero.mp htl] at hin
          simp at hin
      rw [List.find?_cons_of_pos _ (by simpa using hhd), hdeq]
    · have htl : count_matches tl seg = 1 := by
        unfold count_matches at hcount ⊢
        rwa [List.filter_cons_of_neg (by simpa using hhd)] at hcount
      have hne : (name, child) ≠ hd := by
        intro hh
        rw [← hh] at hhd
        exact hhd hmatch
      have hmem' : (name, child) ∈ tl := by
        rcases List.mem_cons.mp hmem with hh | hh
        · exact absurd hh hne
        · exact hh
      rw [List.find?_cons_of_neg _ (by simpa using hhd)]
      exact ih name child hmem' hmatch htl

/-- C5 (amended): the descent loop of `find_file` fails when a required
segment has no case-insensitive match among the current directory's
children (an unwrap panic, not a typed PathNotFound value), and when
exactly one child matches at every level it returns the real on-disk path;
when several children match it does not fail but descends into the first
match in directory order (see the counterexample for the original
claim). -/
theorem c5_find_file_descend :
    (∀ (children : List (String × FsTree)) (seg : String) (rest : List String),
        count_matches children seg = 0 →
        find_file_descend (FsTree.node children) (seg :: rest)
          = Except.error "PathNotFound")
    ∧ (∀ (t : FsTree) (segs real : List String), UniqueDescent t segs real →
        find_file_descend t segs = Except.ok real) := by
  constructor
  · intro children seg rest hc
    have hnil : children.filter
        (fun c => to_ascii_lowercase c.1 = to_ascii_lowercase seg) = [] :=
      List.length_eq_zero.mp hc
    have hf : children.find?
        (fun c => to_ascii_lowercase c.1 = to_ascii_lowercase seg) = none := by
      rw [List.find?_eq_none]
      intro c hcmem hpc
      have hin : c ∈ children.filter
          (fun c => to_ascii_lowercase c.1 = to_ascii_lowercase seg) :=
        List.mem_filter.mpr ⟨hcmem, hpc⟩
      rw [hnil] at hin
      simp at hin
    simp only [find_file_descend, hf]
  · intro t segs real hud
    induction hud with
    | nil t =>
      obtain ⟨cs⟩ := t
      rfl
    | cons hmem hmatch hcount hrest ih =>
      have hf := find_unique_match _ _ _ _ hmem hmatch hcount
      simp only [find_file_descend, hf, ih]

/-- Counterexample for C5 as stated: with two children both matching the
wanted segment case-insensitively, `find_file` does not report an error; it
silently descends into the first match in directory order. -/
theorem c5_counterexample :
    find_file_descend
        (FsTree.node [("FOO", FsTree.node []), ("foo", FsTree.node [])])
        ["foo"]
      = Except.ok ["FOO"]
    ∧ count_matches [("FOO", FsTree.node []), ("foo", FsTree.node [])] "foo"
      = 2 :=
  ⟨rfl, rfl⟩

/-- Witness for C5 (amended): a segment with no match fails, a unique match
at every level resolves to the real path. -/
theorem c5_witness :
    find_file_descend (FsTree.node [("Bar", FsTree.node [])]) ["qux"]
      = Except.error "PathNotFound"
    ∧ find_file_descend (FsTree.node [("Foo", FsTree.node [])]) ["foo"]
      = Except.ok ["Foo"] :=
  ⟨c5_find_file_descend.1 [("Bar", FsTree.node [])] "qux" [] rfl,
    c5_find_file_descend.2 _ ["foo"] ["Foo"]
      (UniqueDescent.cons (List.mem_singleton.mpr rfl) rfl rfl
        (UniqueDescent.nil _))⟩

theorem conflict_pair_mem {p q : Nat × Addon} {c : Conflict} :
    c ∈ conflict_pair p q
      ↔ c.addon_a_index = p.1 ∧ c.addon_b_index = q.1
        ∧ c.dir ∈ p.2.dirs ∧ c.dir ∈ q.2.dirs := by
  unfold conflict_pair
  rw [List.mem_filterMap]
  constructor
  · rintro ⟨dir, hdir, hsome⟩
    by_cases hc : q.2.dirs.contains dir = true
    · rw [if_pos hc] at hsome
      cases hsome
      exact ⟨rfl, rfl, hdir, contains_iff_mem.mp hc⟩
    · rw [if_neg hc] at hsome
      cases hsome
  · rintro ⟨ha, hb, hdp, hdq⟩
    refine ⟨c.dir, hdp, ?_⟩
    rw [if_pos (contains_iff_mem.mpr hdq)]
    obtain ⟨ca, cb, cd⟩ := c
    simp only at ha hb
    rw [ha, hb]

theorem enumFrom_pairwise_fst_lt (l : List α) :
    ∀ n : Nat, (l.enumFrom n).Pairwise (fun p q => p.1 < q.1) := by
  induction l with
  | nil => intro n; simp
  | cons a as ih =>
    intro n
    rw [List.enumFrom_cons, List.pairwise_cons]
    refine ⟨?_, ih (n + 1)⟩
    intro q hq
    have := List.mk_mem_enumFrom_iff_le_and_getElem?_sub.mp
      (show (q.1, q.2) ∈ List.enumFrom (n + 1) as from hq)
    omega

theorem enumFrom_drop_eq (l : List α) :
    ∀ (k n : Nat), (l.enumFrom n).drop k = (l.drop k).enumFrom (n + k) := by
  induction l with
  | nil => intro k n; simp
  | cons a as ih =>
    intro k n
    cases k with
    | zero => simp
    | succ k' =>
      rw [List.enumFrom_cons, List.drop_succ_cons, List.drop_succ_cons, ih]
      congr 1
      omega

theorem mem_enum_drop_iff {l : List α} {k : Nat} {q : Nat × α} :
    q ∈ l.enum.drop k ↔ k ≤ q.1 ∧ l[q.1]? = some q.2 := by
  obtain ⟨i, x⟩ := q
  have he : l.enum.drop k = (l.drop k).enumFrom k := by
    show (l.enumFrom 0).drop k = (l.drop k).enumFrom k
    rw [enumFrom_drop_eq, Nat.zero_add]
  rw [he, List.mk_mem_enumFrom_iff_le_and_getElem?_sub, List.getElem?_drop]
  constructor
  · rintro ⟨hk, hg⟩
    refine ⟨hk, ?_⟩
    rwa [Nat.add_sub_cancel' hk] at hg
  · rintro ⟨hk, hg⟩
    refine ⟨hk, ?_⟩
    rwa [Nat.add_sub_cancel' hk]

/-- C6: when every addon's dirs list is duplicate-free, `check_conflicts`
contains the conflict record (i, j, d) exactly when i < j, both indices are
in range and directory d is owned by both addons — and the whole conflict
list is duplicate-free, so each shared directory of each unordered pair is
reported exactly once, with no reversed pairs. -/
theorem c6_check_conflicts (g : Grunt)
    (hnd : ∀ a ∈ g.addons, a.dirs.Nodup) :
    (∀ i j d,
      (({ addon_a_index := i, addon_b_index := j, dir := d } : Conflict)
          ∈ g.check_conflicts)
        ↔ ∃ a b, g.addons[i]? = some a ∧ g.addons[j]? = some b
            ∧ i < j ∧ d ∈ a.dirs ∧ d ∈ b.dirs)
    ∧ g.check_conflicts.Nodup := by
  constructor
  · intro i j d
    unfold Grunt.check_conflicts conflict_row
    rw [List.mem_flatMap]
    constructor
    · rintro ⟨p, hp, hin⟩
      rw [List.mem_flatMap] at hin
      rcases hin with ⟨q, hq, hpq⟩
      rcases conflict_pair_mem.mp hpq with ⟨ha, hb, hdp, hdq⟩
      simp only at ha hb hdp hdq
      rcases mem_enum_drop_iff.mp hq with ⟨hle, hqg⟩
      have hpg := List.mem_enum_iff_getElem?.mp hp
      refine ⟨p.2, q.2, ?_, ?_, ?_, ?_, ?_⟩
      · rw [ha]
        exact hpg
      · rw [hb]
        exact hqg
      · omega
      · exact hdp
      · exact hdq
    · rintro ⟨a, b, hag, hbg, hij, hda, hdb⟩
      refine ⟨(i, a), List.mem_enum_iff_getElem?.mpr hag, ?_⟩
      rw [List.mem_flatMap]
      refine ⟨(j, b), mem_enum_drop_iff.mpr ⟨by omega, hbg⟩, ?_⟩
      exact conflict_pair_mem.mpr ⟨rfl, rfl, hda, hdb⟩
  · unfold Grunt.check_conflicts
    rw [List.nodup_flatMap]
    constructor
    · intro p hp
      unfold conflict_row
      rw [List.nodup_flatMap]
      constructor
      · intro q _
        unfold conflict_pair
        refine List.Nodup.filterMap ?_
          (hnd p.2 (List.getElem?_mem (List.mem_enum_iff_getElem?.mp hp)))
        intro d1 d2 c hc1 hc2
        by_cases h1 : q.2.dirs.contains d1 = true
        · by_cases h2 : q.2.dirs.contains d2 = true
          · rw [if_pos h1] at hc1
            rw [if_pos h2] at hc2
            cases hc1
            cases hc2
            rfl
          · rw [if_neg h2] at hc2
            cases hc2
        · rw [if_neg h1] at hc1
          cases hc1
      · have hpw : (g.addons.enum.drop (p.1 + 1)).Pairwise
            (fun x y => x.1 < y.1) :=
          (enumFrom_pairwise_fst_lt g.addons 0).drop
        refine hpw.imp ?_
        intro x y hxy c hcx hcy
        have h1 := (conflict_pair_mem.mp hcx).2.1
        have h2 := (conflict_pair_mem.mp hcy).2.1
        omega
    · have hpw : g.addons.enum.Pairwise (fun x y => x.1 < y.1) :=
        enumFrom_pairwise_fst_lt g.addons 0
      refine hpw.imp ?_
      intro x y hxy c hcx hcy
      unfold conflict_row at hcx hcy
      rw [List.mem_flatMap] at hcx hcy
      rcases hcx with ⟨q1, _, hc1⟩
      rcases hcy with ⟨q2, _, hc2⟩
      have h1 := (conflict_pair_mem.mp hc1).1
      have h2 := (conflict_pair_mem.mp hc2).1
      omega

/-- Witness for C6, the spec's three-addon scenario: three addons pairwise
sharing distinct directories; the shared directory of the first unordered
pair is reported with a_index < b_index and the conflict list is
duplicate-free. -/
theorem c6_witness :
    (({ addon_a_index := 0, addon_b_index := 1, dir := "x" } : Conflict)
        ∈ Grunt.check_conflicts
          { addons :=
              [{ name := "A", addon_type := AddonType.TSM, addon_id := "a",
                 version := "1", dirs := ["x", "y"] },
               { name := "B", addon_type := AddonType.TSM, addon_id := "b",
                 version := "1", dirs := ["x", "z"] },
               { name := "C", addon_type := AddonType.TSM, addon_id := "c",
                 version := "1", dirs := ["y", "z"] }],
            root_dirs := [] })
    ∧ (Grunt.check_conflicts
          { addons :=
              [{ name := "A", addon_type := AddonType.TSM, addon_id := "a",
                 version := "1", dirs := ["x", "y"] },
               { name := "B", addon_type := AddonType.TSM, addon_id := "b",
                 version := "1", dirs := ["x", "z"] },
               { name := "C", addon_type := AddonType.TSM, addon_id := "c",
                 version := "1", dirs := ["y", "z"] }],
            root_dirs := [] }).Nodup := by
  have h := c6_check_conflicts
    { addons :=
        [{ name := "A", addon_type := AddonType.TSM, addon_id := "a",
           version := "1", dirs := ["x", "y"] },
         { name := "B", addon_type := AddonType.TSM, addon_id := "b",
           version := "1", dirs := ["x", "z"] },
         { name := "C", addon_type := AddonType.TSM, addon_id := "c",
           version := "1", dirs := ["y", "z"] }],
      root_dirs := [] } (by decide)
  exact ⟨(h.1 0 1 "x").mpr ⟨_, _, rfl, rfl, by decide, by decide, by decide⟩,
    h.2⟩

theorem split_commas_ne_nil : ∀ cs : List Char, split_commas cs ≠ [] := by
  intro cs
  induction cs with
  | nil => simp [split_commas]
  | cons c rest ih =>
    rw [split_commas]
    by_cases hc : c = ','
    · simp [hc]
    · rw [if_neg hc]
      cases hsc : split_commas rest with
      | nil => simp
      | cons h t => simp

theorem toc_project_folders_ne_nil (s : String) : toc_project_folders s ≠ [] := by
  unfold toc_project_folders
  intro h
  exact split_commas_ne_nil s.data (List.map_eq_nil_iff.mp h)

theorem entry_names_ok :
    ∀ (es : List StagedEntry) (ns : List String), entry_names es = Except.ok ns →
      ∀ e ∈ es, e.is_file = false := by
  intro es
  induction es with
  | nil =>
    intro ns _ e he
    simp at he
  | cons e0 rest ih =>
    intro ns h e he
    rw [entry_names] at h
    by_cases hf : e0.is_file = true
    · rw [if_pos hf] at h
      cases h
    · rw [if_neg hf] at h
      rcases List.mem_cons.mp he with he | he
      · subst he
        simpa using hf
      · cases hrec : entry_names rest with
        | error msg => rw [hrec] at h; cases h
        | ok r => exact ih r hrec e he

theorem staged_dir_names_ok (staged : Nat → List StagedEntry) :
    ∀ (idxs : List Nat) (nds : List String),
      staged_dir_names staged idxs = Except.ok nds →
      ∀ i ∈ idxs, ∃ ns, entry_names (staged i) = Except.ok ns := by
  intro idxs
  induction idxs with
  | nil =>
    intro nds _ i hi
    simp at hi
  | cons i0 rest ih =>
    intro nds h i hi
    rw [staged_dir_names] at h
    cases he : entry_names (staged i0) with
    | error e => rw [he] at h; cases h
    | ok here =>
      rw [he] at h
      cases hr : staged_dir_names staged rest with
      | error e => rw [hr] at h; cases h
      | ok there =>
        rcases List.mem_cons.mp hi with hi | hi
        · exact ⟨here, hi ▸ he⟩
        · exact ih there hr i hi

theorem apply_finalize_inv (staged : Nat → List StagedEntry) :
    ∀ (upds : List (Nat × String)) (addons : List Addon),
      (∀ a ∈ addons, a.dirs ≠ []) →
      (∀ iv ∈ upds,
        ((staged iv.1).filter (fun e => !e.is_file)).map StagedEntry.name ≠ []) →
      ∀ a ∈ apply_finalize staged addons upds, a.dirs ≠ [] := by
  intro upds
  induction upds with
  | nil =>
    intro addons h0 _ a ha
    rw [apply_finalize] at ha
    exact h0 a ha
  | cons iv rest ih =>
    intro addons h0 hupds a ha
    obtain ⟨i, v⟩ := iv
    rw [apply_finalize] at ha
    refine ih _ ?_ (fun iv' hm => hupds iv' (List.mem_cons_of_mem _ hm)) a ha
    intro a' ha'
    cases hg : addons[i]? with
    | none =>
      rw [hg] at ha'
      exact h0 a' ha'
    | some a0 =>
      rw [hg] at ha'
      rcases List.mem_or_eq_of_mem_set ha' with hmem | heq
      · exact h0 a' hmem
      · rw [heq]
        exact hupds (i, v) (List.mem_cons_self _ _)

theorem update_commit_dirs_nonempty (g : Grunt)
    (outdated : List (Nat × String)) (staged : Nat → List StagedEntry)
    (g' : Grunt)
    (hok : (g.update_addons_commit outdated staged).2 = Except.ok g')
    (h0 : ∀ a ∈ g.addons, a.dirs ≠ [])
    (hstaged : ∀ i ∈ outdated.map Prod.fst, staged i ≠ []) :
    ∀ a ∈ g'.addons, a.dirs ≠ [] := by
  unfold Grunt.update_addons_commit at hok
  split at hok
  · simp at hok
  · dsimp only at hok
    cases hsd : staged_dir_names staged (outdated.map Prod.fst) with
    | error e =>
      rw [hsd] at hok
      simp at hok
    | ok new_dirs =>
      rw [hsd] at hok
      dsimp only at hok
      by_cases hdup : has_dup_loop new_dirs = true
      · rw [if_pos hdup] at hok
        simp at hok
      · rw [if_neg hdup] at hok
        by_cases hany : (new_dirs.any fun d =>
            (untouched_dirs g.addons (List.map Prod.fst outdated)).contains d) = true
        · rw [if_pos hany] at hok
          simp at hok
        · rw [if_neg hany] at hok
          have hadd : g'.addons = apply_finalize staged g.addons outdated := by
              have h2 := Except.ok.inj hok
              rw [← h2]
          refine fun a ha =>
            apply_finalize_inv staged outdated g.addons h0 ?_ a (hadd ▸ ha)
          intro iv hm
          have hi : iv.1 ∈ outdated.map Prod.fst := List.mem_map.mpr ⟨iv, hm, rfl⟩
          obtain ⟨ns, hen⟩ := staged_dir_names_ok staged (outdated.map Prod.fst)
            new_dirs hsd iv.1 hi
          have hall := entry_names_ok (staged iv.1) ns hen
          have hfil : (staged iv.1).filter (fun e => !e.is_file) = staged iv.1 :=
            List.filter_eq_self.mpr (fun e he => by rw [hall e he]; rfl)
          rw [hfil]
          intro hmap
          exact hstaged iv.1 hi (List.map_eq_nil_iff.mp hmap)

theorem remove_addons_go_inv :
    ∀ (names : List String) (g g' : Grunt),
      (∀ a ∈ g.addons, a.dirs ≠ []) →
      remove_addons_go g names = some g' →
      ∀ a ∈ g'.addons, a.dirs ≠ [] := by
  intro names
  induction names with
  | nil =>
    intro g g' h0 h
    rw [remove_addons_go] at h
    cases h
    exact h0
  | cons n rest ih =>
    intro g g' h0 h
    rw [remove_addons_go] at h
    cases hf : g.addons.findIdx? (fun a => a.name = n) with
    | none => rw [hf] at h; cases h
    | some i =>
      rw [hf] at h
      dsimp only at h
      cases hg : g.addons[i]? with
      | none => rw [hg] at h; cases h
      | some addon =>
        rw [hg] at h
        dsimp only at h
        cases hd : delete_dirs_all g.root_dirs addon.dirs with
        | none => rw [hd] at h; cases h
        | some root2 =>
          rw [hd] at h
          dsimp only at h
          refine ih _ g' ?_ h
          intro a hmem
          exact h0 a (List.eraseIdx_subset _ _ hmem)

theorem apply_op_inv (g : Grunt) (op : GruntOp) (g' : Grunt)
    (h0 : ∀ a ∈ g.addons, a.dirs ≠ [])
    (hop : op_staging_nonempty op)
    (ha : apply_op g op = some g') :
    ∀ a ∈ g'.addons, a.dirs ≠ [] := by
  cases op with
  | resolve_tsm v =>
    unfold apply_op at ha
    dsimp only at ha
    split at ha
    · cases ha
      intro a hmem
      rcases List.mem_append.mp hmem with hm | hm
      · exact h0 a hm
      · rw [List.mem_singleton.mp hm]
        simp [Addon.init_tsm]
    · cases ha
      exact h0
  | resolve_tsm_helper v =>
    unfold apply_op at ha
    dsimp only at ha
    split at ha
    · cases ha
      intro a hmem
      rcases List.mem_append.mp hmem with hm | hm
      · exact h0 a hm
      · rw [List.mem_singleton.mp hm]
        simp [Addon.init_tsm_helper]
    · cases ha
      exact h0
  | resolve_tukui name id folders_line v =>
    unfold apply_op at ha
    dsimp only at ha
    cases ha
    intro a hmem
    rcases List.mem_append.mp hmem with hm | hm
    · exact h0 a hm
    · rw [List.mem_singleton.mp hm]
      simpa [Addon.from_tukui_info] using toc_project_folders_ne_nil folders_line
  | resolve_curse_match name info =>
    unfold apply_op at ha
    dsimp only at ha
    cases hm : info.file.modules.getLast? with
    | none => rw [hm] at ha; cases ha
    | some m =>
      rw [hm] at ha
      cases ha
      intro a hmem
      rcases List.mem_append.mp hmem with hmm | hmm
      · exact h0 a hmm
      · rw [List.mem_singleton.mp hmm]
        rcases List.getLast?_eq_some_iff.mp hm with ⟨ys, hys⟩
        simp [Addon.from_curse_info, hys]
  | update outdated staged =>
    unfold apply_op at ha
    dsimp only at ha
    cases hres : (g.update_addons_commit outdated staged).2 with
    | error e => rw [hres] at ha; cases ha
    | ok g2 =>
      rw [hres] at ha
      cases ha
      exact update_commit_dirs_nonempty g outdated staged _ hres h0 hop
  | remove_addons names =>
    unfold apply_op at ha
    dsimp only at ha
    exact remove_addons_go_inv names g g' h0 ha
  | remove_dirs dirs =>
    unfold apply_op at ha
    dsimp only at ha
    split at ha
    · cases ha
      exact h0
    · cases ha

theorem run_ops_inv :
    ∀ (ops : List GruntOp) (g g' : Grunt),
      (∀ a ∈ g.addons, a.dirs ≠ []) →
      (∀ op ∈ ops, op_staging_nonempty op) →
      run_ops g ops = some g' →
      ∀ a ∈ g'.addons, a.dirs ≠ [] := by
  intro ops
  induction ops with
  | nil =>
    intro g g' h0 _ h
    rw [run_ops] at h
    cases h
    exact h0
  | cons op rest ih =>
    intro g g' h0 hops h
    rw [run_ops] at h
    cases hap : apply_op g op with
    | none => rw [hap] at h; cases h
    | some g1 =>
      rw [hap] at h
      exact ih g1 g'
        (apply_op_inv g op g1 h0 (hops op (List.mem_cons_self _ _)) hap)
        (fun o ho => hops o (List.mem_cons_of_mem _ ho)) h

/-- C7 (amended): starting from a state whose addons all own at least one
directory, any sequence of resolution, update, removal and directory
removal operations in which every applied update stages at least one
top-level entry leaves every manifest record written by `save_lockfile`
with a non-empty dirs list.  (The staging side condition is forced by the
counterexample: an update whose staged directory is empty makes the code
store an empty dirs list with no check.) -/
theorem c7_saved_dirs_nonempty (g g' : Grunt) (ops : List GruntOp)
    (h0 : ∀ a ∈ g.addons, a.dirs ≠ [])
    (hops : ∀ op ∈ ops, op_staging_nonempty op)
    (hrun : run_ops g ops = some g') :
    ∀ info ∈ Lockfile.from_grunt g', info.dirs ≠ [] := by
  intro info hinfo
  rcases List.mem_map.mp hinfo with ⟨a, hmem, hconv⟩
  have hinv := run_ops_inv ops g g' h0 hops hrun a hmem
  rw [← hconv]
  exact hinv

/-- Counterexample for C7 as stated: updating addon A with a staged archive
whose unpacked directory is empty passes every check, deletes A's old
directory, and then records and persists an addon whose dirs list is
empty. -/
theorem c7_counterexample :
    ∃ g', run_ops
        { addons := [{ name := "A", addon_type := AddonType.Curse,
                       addon_id := "1", version := "2", dirs := ["A"] }],
          root_dirs := ["A"] }
        [GruntOp.update [(0, "3")] (fun _ => [])]
      = some g'
    ∧ ∃ info ∈ Lockfile.from_grunt g', info.dirs = [] := by
  refine ⟨{ addons := [{ name := "A", addon_type := AddonType.Curse,
                         addon_id := "1", version := "3", dirs := [] }],
            root_dirs := [] }, ?_, ?_⟩
  · rfl
  · exact ⟨{ name := "A", addon_type := AddonType.Curse, addon_id := "1",
             dirs := [] }, by decide, rfl⟩

/-- Witness for C7 (amended): an update staging one directory keeps the
persisted record's dirs non-empty. -/
theorem c7_witness :
    ({ name := "A", addon_type := AddonType.Curse, addon_id := "1",
       dirs := ["NewA"] } : AddonInfo).dirs ≠ [] :=
  c7_saved_dirs_nonempty
    { addons := [{ name := "A", addon_type := AddonType.Curse,
                   addon_id := "1", version := "2", dirs := ["A"] }],
      root_dirs := ["A"] }
    { addons := [{ name := "A", addon_type := AddonType.Curse,
                   addon_id := "1", version := "3", dirs := ["NewA"] }],
      root_dirs := ["NewA"] }
    [GruntOp.update [(0, "3")] (fun _ => [{ name := "NewA", is_file := false }])]
    (by decide)
    (by
      intro op hop
      rw [List.mem_singleton.mp hop]
      intro i hi
      simp)
    rfl
    { name := "A", addon_type := AddonType.Curse, addon_id := "1",
      dirs := ["NewA"] }
    (by decide)
